import Mathlib

/-!
# Verification of the GFPGAN video-enhancement frame pipeline

Shallow embedding of `src/app.py`: frame extraction with a sampling
stride (`extract_frames`), video reconstruction from a directory of
frames (`reconstruct_video`), audio muxing (`add_audio_to_video`), and
the orchestrating try/except/finally block of `main`.

Conventions of the embedding:
* a video source is its list of decodable frames plus its native fps and
  optional audio track (`cv2.VideoCapture` yields the frames in decode
  order; an unopenable source yields no frames);
* a directory is an association list of (filename, image) pairs in
  `os.listdir` order; `cv2.imread` is lookup in that list;
* Python string comparison (used by `sorted`) is lexicographic on code
  points, embedded by `strLtCore`/`pyStrLt`/`pyStrLe`; `sorted` itself
  (a stable ascending sort) is embedded by insertion sort, which is
  extensionally identical to any stable sort for the same total order;
* Python `f"{n:04d}"` is embedded by `format04`: the decimal digits of
  `n`, left-padded with `'0'` to at least four characters;
* fallible Python code (raising exceptions) returns `Except`.
-/

/-- One decoded image: spatial resolution plus an abstract content tag
standing for the pixel buffer. -/
structure Image where
  width : Nat
  height : Nat
  pix : Nat
deriving DecidableEq, Inhabited, Repr

/-- An audio track: effective duration in seconds plus an abstract
payload tag standing for the encoded samples. -/
structure AudioTrack where
  duration : ℚ
  payload : Nat
deriving DecidableEq, Inhabited, Repr

/-- A source video container: its decodable frames in decode order, its
native frame rate, and its audio track when it has one.  A container
that cannot be opened decodes zero frames. -/
structure Source where
  frames : List Image
  fps : ℚ
  audio : Option AudioTrack
deriving DecidableEq, Inhabited, Repr

/-! ## Python string comparison (`str.__lt__`, used by `sorted`) -/

/-- Lexicographic comparison of character lists by code point,
the comparison Python uses on `str`. -/
def strLtCore : List Char → List Char → Bool
  | _, [] => false
  | [], _ :: _ => true
  | a :: as, b :: bs =>
    if a.toNat < b.toNat then true
    else if b.toNat < a.toNat then false
    else strLtCore as bs

/-- Python `s < t` on strings. -/
def pyStrLt (s t : String) : Bool := strLtCore s.data t.data

/-- Python `s <= t` on strings. -/
def pyStrLe (s t : String) : Bool := !(pyStrLt t s)

/-- Python `s.endswith(pat)`. -/
def strEndsWith (s pat : String) : Bool := pat.data.isSuffixOf s.data

/-! ## Decimal formatting (`f"{n:04d}"`) -/

/-- The character of one decimal digit. -/
def digitChar : Nat → Char
  | 0 => '0' | 1 => '1' | 2 => '2' | 3 => '3' | 4 => '4'
  | 5 => '5' | 6 => '6' | 7 => '7' | 8 => '8' | 9 => '9'
  | _ => '*'

/-- Decimal digits of `n`, most significant first; the fuel argument
only bounds the recursion depth and is irrelevant once it exceeds the
number of digits. -/
def decDigitsAux : Nat → Nat → List Char
  | 0, _ => []
  | fuel + 1, n =>
    if n < 10 then [digitChar n]
    else decDigitsAux fuel (n / 10) ++ [digitChar (n % 10)]

/-- Decimal digit characters of `n` (most significant first). -/
def decDigits (n : Nat) : List Char := decDigitsAux (n + 1) n

/-- Python `f"{n:04d}"`: decimal digits of `n`, left-padded with zeros
to at least four characters. -/
def format04 (n : Nat) : String :=
  ⟨List.replicate (4 - (decDigits n).length) '0' ++ decDigits n⟩

/-- The filename `extract_frames` writes for decode index `i`:
`f"frame_{i:04d}.jpg"`. -/
def frameName (i : Nat) : String := "frame_" ++ format04 i ++ ".jpg"

/-! ## `extract_frames` (src/app.py lines 12-28) -/

/-- The decode loop of `extract_frames`: `i` is the running
`frame_count`; a frame at decode index `i` is written iff
`i % (skip_frames + 1) == 0`, and `i` increments on every decoded
frame, written or skipped. -/
def extractLoop (skip_frames : Nat) : List Image → Nat → List (String × Image)
  | [], _ => []
  | f :: rest, i =>
    (if i % (skip_frames + 1) == 0 then [(frameName i, f)] else []) ++
      extractLoop skip_frames rest (i + 1)

/-- `extract_frames(video_path, output_dir, skip_frames)`: returns the
files written to the output directory together with the function's
return value `(frame_count, original_fps)`.  It has no failure path:
a source with no decodable frames just produces an empty directory and
a zero count. -/
def extract_frames (src : Source) (skip_frames : Nat) :
    List (String × Image) × Nat × ℚ :=
  (extractLoop skip_frames src.frames 0, src.frames.length, src.fps)

/-! ## `reconstruct_video` (src/app.py lines 30-47) -/

/-- Insert a string into a list, before the first element it compares
`<=` to: one step of a stable ascending sort. -/
def insertSorted (a : String) : List String → List String
  | [] => [a]
  | b :: l => if pyStrLe a b then a :: b :: l else b :: insertSorted a l

/-- Python `sorted` on a list of strings: a stable ascending sort with
respect to `pyStrLe`.  All stable sorts for the same total order agree
extensionally. -/
def sortStrings : List String → List String
  | [] => []
  | b :: l => insertSorted b (sortStrings l)

/-- The list comprehension of `reconstruct_video` line 32 before
sorting: the names of the directory entries ending in `".jpg"`. -/
def jpgNames (dir : List (String × Image)) : List String :=
  (dir.map Prod.fst).filter (fun f => strEndsWith f ".jpg")

/-- `cv2.imread` of a named file inside a directory: the image stored
under that name. -/
def imread (dir : List (String × Image)) (name : String) : Image :=
  match dir.find? (fun p => p.1 == name) with
  | some p => p.2
  | none => default

/-- The error raised by `reconstruct_video`:
`ValueError("No frames found for reconstruction")`. -/
inductive ReconErr where
  | noFrames
deriving DecidableEq, Repr

/-- A written video container: the geometry the writer was opened with,
the frame rate, and the frames passed to `out.write` in order. -/
structure Video where
  width : Nat
  height : Nat
  fps : ℚ
  frames : List Image
deriving DecidableEq, Repr

/-- `reconstruct_video(frame_dir, output_path, original_fps)`: sorts the
`.jpg` filenames of the directory, raises when there are none, sizes
the writer from the first frame in sort order, and writes every frame
in sort order at the given fps. -/
def reconstruct_video (dir : List (String × Image)) (original_fps : ℚ) :
    Except ReconErr Video :=
  match sortStrings (jpgNames dir) with
  | [] => .error .noFrames
  | p0 :: rest =>
    .ok { width := (imread dir p0).width, height := (imread dir p0).height,
          fps := original_fps,
          frames := (p0 :: rest).map (imread dir) }

/-- Effective playback duration of a written video in seconds. -/
def videoDuration (v : Video) : ℚ := (v.frames.length : ℚ) / v.fps

/-! ## `add_audio_to_video` (src/app.py lines 49-60) -/

/-- A `moviepy` clip as used here: duration and optional audio track. -/
structure Clip where
  duration : ℚ
  audio : Option AudioTrack
deriving DecidableEq, Repr

/-- `moviepy`'s `set_duration`: the same track with its effective
duration forced to `d`. -/
def set_duration (a : AudioTrack) (d : ℚ) : AudioTrack :=
  { a with duration := d }

/-- The error raised by `add_audio_to_video` when the original clip has
no audio track: `original_clip.audio` is `None` and the attribute
access `None.set_duration` raises `AttributeError`. -/
inductive MuxErr where
  | noneHasNoSetDuration
deriving DecidableEq, Repr

/-- `add_audio_to_video(original, enhanced, output)`: takes the original
clip's audio, forces its duration to the enhanced clip's duration, and
writes the enhanced video with that audio attached. -/
def add_audio_to_video (original enhanced : Clip) : Except MuxErr Clip :=
  match original.audio with
  | none => .error .noneHasNoSetDuration
  | some a =>
    .ok { duration := enhanced.duration,
          audio := some (set_duration a enhanced.duration) }

/-! ## The pipeline run (`main`, src/app.py lines 90-140) -/

/-- A classified failure of one stage of the run, as caught by the
`except Exception` handler in `main`. -/
inductive PipeErr where
  | engineFailed
  | reconFailed (e : ReconErr)
  | muxFailed (e : MuxErr)
deriving DecidableEq, Repr

/-- Observable events of one button-press run, in order. -/
inductive Event where
  | success
  | errorShown
  | cudaCacheCleared
deriving DecidableEq, Repr

/-- Outcome of one button-press run of the enhancement pipeline. -/
structure RunResult where
  finalVideo : Option Clip
  errorShown : Bool
  events : List Event
deriving DecidableEq, Repr

/-- The clip `VideoFileClip(input_path)` opened on the source. -/
def sourceClip (src : Source) : Clip :=
  { duration := (src.frames.length : ℚ) / src.fps, audio := src.audio }

/-- The clip `VideoFileClip(enhanced_video_path)` opened on a silent
reconstructed video. -/
def videoClip (v : Video) : Clip :=
  { duration := videoDuration v, audio := none }

/-- The try/except/finally block of `main` behind the Enhance button:
extraction, the external engine call (an opaque parameter returning the
directory used for reconstruction, or failing), reconstruction, muxing.
Any raise is caught by the `except` handler, which shows the error; the
`finally` clause issues `torch.cuda.empty_cache()` on every path. -/
def runEnhance (src : Source) (skip_frames : Nat)
    (engine : List (String × Image) → Except Unit (List (String × Image))) :
    RunResult :=
  let attempt : Except PipeErr Clip :=
    let ext := extract_frames src skip_frames
    match engine ext.1 with
    | .error _ => .error .engineFailed
    | .ok restored =>
      match reconstruct_video restored ext.2.2 with
      | .error e => .error (.reconFailed e)
      | .ok v =>
        match add_audio_to_video (sourceClip src) (videoClip v) with
        | .error e => .error (.muxFailed e)
        | .ok final => .ok final
  match attempt with
  | .ok c =>
      { finalVideo := some c, errorShown := false,
        events := [.success, .cudaCacheCleared] }
  | .error _ =>
      { finalVideo := none, errorShown := true,
        events := [.errorShown, .cudaCacheCleared] }

/-! ## Algebra of the Python string order -/

theorem Char.toNat_injective {a b : Char} (h : a.toNat = b.toNat) : a = b :=
  Char.ext (UInt32.toNat.inj h)

theorem strLtCore_asymm : ∀ l₁ l₂, strLtCore l₁ l₂ = true → strLtCore l₂ l₁ = false
  | [], [] => by simp [strLtCore]
  | [], _ :: _ => by simp [strLtCore]
  | _ :: _, [] => by simp [strLtCore]
  | a :: as, b :: bs => by
    intro h
    rcases Nat.lt_trichotomy a.toNat b.toNat with h1 | h1 | h1
    · simp [strLtCore, h1, Nat.lt_asymm h1]
    · simp only [strLtCore, h1, lt_self_iff_false, if_false] at h ⊢
      exact strLtCore_asymm as bs h
    · simp [strLtCore, h1, Nat.lt_asymm h1] at h

theorem strLtCore_trans :
    ∀ l₁ l₂ l₃, strLtCore l₁ l₂ = true → strLtCore l₂ l₃ = true → strLtCore l₁ l₃ = true
  | _, _, [] => by intro _ h2; cases h2' : strLtCore _ [] <;> simp_all [strLtCore]
  | [], [], _ :: _ => by simp [strLtCore]
  | [], _ :: _, _ :: _ => by simp [strLtCore]
  | _ :: _, [], _ :: _ => by simp [strLtCore]
  | a :: as, b :: bs, c :: cs => by
    intro h1 h2
    rcases Nat.lt_trichotomy a.toNat b.toNat with hab | hab | hab <;>
      rcases Nat.lt_trichotomy b.toNat c.toNat with hbc | hbc | hbc
    · simp [strLtCore, Nat.lt_trans hab hbc]
    · simp [strLtCore, hbc ▸ hab]
    · simp [strLtCore, hbc, Nat.lt_asymm hbc] at h2
    · simp [strLtCore, hab ▸ hbc]
    · simp only [strLtCore, hab, hbc, lt_self_iff_false, if_false] at h1 h2 ⊢
      exact strLtCore_trans as bs cs h1 h2
    · simp [strLtCore, hbc, Nat.lt_asymm hbc] at h2
    · simp [strLtCore, hab, Nat.lt_asymm hab] at h1
    · simp [strLtCore, hab, Nat.lt_asymm hab] at h1
    · simp [strLtCore, hab, Nat.lt_asymm hab] at h1

theorem strLtCore_conn :
    ∀ l₁ l₂, strLtCore l₁ l₂ = false → strLtCore l₂ l₁ = false → l₁ = l₂
  | [], [] => by simp
  | [], _ :: _ => by simp [strLtCore]
  | _ :: _, [] => by simp [strLtCore]
  | a :: as, b :: bs => by
    intro h1 h2
    rcases Nat.lt_trichotomy a.toNat b.toNat with hab | hab | hab
    · simp [strLtCore, hab] at h1
    · simp only [strLtCore, hab, lt_self_iff_false, if_false] at h1 h2
      rw [Char.toNat_injective hab, strLtCore_conn as bs h1 h2]
    · simp [strLtCore, hab, Nat.lt_asymm hab] at h2

theorem pyStrLe_of_not_le {a b : String} (h : pyStrLe a b = false) : pyStrLe b a = true := by
  simp only [pyStrLe, pyStrLt, Bool.not_eq_false', Bool.not_eq_true'] at h ⊢
  exact strLtCore_asymm _ _ h

theorem pyStrLe_trans {a b c : String}
    (h1 : pyStrLe a b = true) (h2 : pyStrLe b c = true) : pyStrLe a c = true := by
  simp only [pyStrLe, pyStrLt, Bool.not_eq_true'] at h1 h2 ⊢
  cases hca : strLtCore c.data a.data with
  | false => rfl
  | true =>
    cases hbc : strLtCore b.data c.data with
    | true => rw [strLtCore_trans _ _ _ hbc hca] at h1; cases h1
    | false =>
      have hbc' := strLtCore_conn _ _ h2 hbc
      rw [← hbc', hca] at h1
      cases h1

/-! ## Sorting lemmas -/

theorem perm_insertSorted (a : String) : ∀ l, List.Perm (insertSorted a l) (a :: l)
  | [] => .refl _
  | b :: l => by
    simp only [insertSorted]
    by_cases hab : pyStrLe a b = true
    · rw [if_pos hab]
    · rw [if_neg hab]
      exact ((perm_insertSorted a l).cons b).trans (List.Perm.swap a b l)

theorem perm_sortStrings : ∀ l, List.Perm (sortStrings l) l
  | [] => .refl _
  | b :: l => (perm_insertSorted b (sortStrings l)).trans ((perm_sortStrings l).cons b)

theorem mem_insertSorted {x a : String} {l : List String} :
    x ∈ insertSorted a l ↔ x = a ∨ x ∈ l := by
  rw [(perm_insertSorted a l).mem_iff, List.mem_cons]

theorem pairwise_insertSorted {a : String} :
    ∀ {l}, l.Pairwise (fun x y => pyStrLe x y = true) →
      (insertSorted a l).Pairwise (fun x y => pyStrLe x y = true)
  | [], _ => by simp [insertSorted]
  | b :: l, h => by
    rcases List.pairwise_cons.mp h with ⟨hb, hl⟩
    simp only [insertSorted]
    by_cases hab : pyStrLe a b = true
    · rw [if_pos hab]
      refine List.pairwise_cons.mpr ⟨?_, h⟩
      intro y hy
      rcases List.mem_cons.mp hy with rfl | hy
      · exact hab
      · exact pyStrLe_trans hab (hb y hy)
    · have hab' : pyStrLe a b = false := by simpa using hab
      rw [if_neg hab]
      refine List.pairwise_cons.mpr ⟨?_, pairwise_insertSorted hl⟩
      intro y hy
      rcases mem_insertSorted.mp hy with rfl | hy
      · exact pyStrLe_of_not_le hab'
      · exact hb y hy

theorem sorted_sortStrings : ∀ l, (sortStrings l).Pairwise (fun x y => pyStrLe x y = true)
  | [] => .nil
  | _ :: l => pairwise_insertSorted (sorted_sortStrings l)

theorem pyStrLt_of_le_of_ne {x y : String} (h : pyStrLe x y = true) (hne : x ≠ y) :
    pyStrLt x y = true := by
  simp only [pyStrLe, pyStrLt, Bool.not_eq_true'] at h ⊢
  cases hxy : strLtCore x.data y.data with
  | true => rfl
  | false => exact absurd (congrArg String.mk (strLtCore_conn _ _ hxy h)) hne

theorem strict_sorted_sortStrings {l : List String} (hn : l.Nodup) :
    (sortStrings l).Pairwise (fun x y => pyStrLt x y = true) := by
  have hs := sorted_sortStrings l
  have hn' : (sortStrings l).Nodup := ((perm_sortStrings l).nodup_iff).mpr hn
  exact (hs.and hn').imp (fun h => pyStrLt_of_le_of_ne h.1 h.2)

/-! ## Decimal formatting lemmas -/

theorem decDigitsAux_fuel (n : Nat) :
    ∀ f f', n < f → n < f' → decDigitsAux f n = decDigitsAux f' n := by
  induction n using Nat.strong_induction_on with
  | _ n ih =>
    intro f f' hf hf'
    cases f with
    | zero => omega
    | succ g =>
      cases f' with
      | zero => omega
      | succ g' =>
        by_cases h10 : n < 10
        · simp [decDigitsAux, h10]
        · have hdiv : n / 10 < n := Nat.div_lt_self (by omega) (by omega)
          simp only [decDigitsAux, h10, if_false]
          rw [ih (n / 10) hdiv g g' (by omega) (by omega)]

theorem decDigits_lt_ten {n : Nat} (h : n < 10) : decDigits n = [digitChar n] := by
  simp [decDigits, decDigitsAux, h]

theorem decDigits_step {n : Nat} (h : 10 ≤ n) :
    decDigits n = decDigits (n / 10) ++ [digitChar (n % 10)] := by
  have h1 : ¬ n < 10 := by omega
  have hdiv : n / 10 < n := Nat.div_lt_self (by omega) (by omega)
  simp only [decDigits, decDigitsAux, h1, if_false]
  rw [decDigitsAux_fuel (n / 10) n (n / 10 + 1) (by omega) (by omega)]
  simp [decDigitsAux]

theorem decDigits_two {n : Nat} (h1 : 10 ≤ n) (h2 : n < 100) :
    decDigits n = [digitChar (n / 10), digitChar (n % 10)] := by
  rw [decDigits_step h1, decDigits_lt_ten (by omega)]
  rfl

theorem decDigits_three {n : Nat} (h1 : 100 ≤ n) (h2 : n < 1000) :
    decDigits n = [digitChar (n / 100), digitChar (n / 10 % 10), digitChar (n % 10)] := by
  rw [decDigits_step (by omega), decDigits_two (by omega) (by omega)]
  have e : n / 10 / 10 = n / 100 := by omega
  rw [e]
  rfl

theorem decDigits_four {n : Nat} (h1 : 1000 ≤ n) (h2 : n < 10000) :
    decDigits n =
      [digitChar (n / 1000), digitChar (n / 100 % 10),
       digitChar (n / 10 % 10), digitChar (n % 10)] := by
  rw [decDigits_step (by omega), decDigits_three (by omega) (by omega)]
  have e1 : n / 10 / 100 = n / 1000 := by omega
  have e2 : n / 10 / 10 % 10 = n / 100 % 10 := by omega
  rw [e1, e2]
  rfl

theorem format04_data {n : Nat} (h : n < 10000) :
    (format04 n).data =
      [digitChar (n / 1000), digitChar (n / 100 % 10),
       digitChar (n / 10 % 10), digitChar (n % 10)] := by
  rcases Nat.lt_or_ge n 10 with h1 | h1
  · have e1 : n / 1000 = 0 := by omega
    have e2 : n / 100 % 10 = 0 := by omega
    have e3 : n / 10 % 10 = 0 := by omega
    have e4 : n % 10 = n := by omega
    simp [format04, decDigits_lt_ten h1, e1, e2, e3, e4, List.replicate, digitChar]
  · rcases Nat.lt_or_ge n 100 with h2 | h2
    · have e1 : n / 1000 = 0 := by omega
      have e2 : n / 100 % 10 = 0 := by omega
      have e3 : n / 10 % 10 = n / 10 := by omega
      simp [format04, decDigits_two h1 h2, e1, e2, e3, List.replicate, digitChar]
    · rcases Nat.lt_or_ge n 1000 with h3 | h3
      · have e1 : n / 1000 = 0 := by omega
        have e2 : n / 100 % 10 = n / 100 := by omega
        simp [format04, decDigits_three h2 h3, e1, e2, List.replicate, digitChar]
      · simp [format04, decDigits_four h3 h, List.replicate]

/-! ## Filename ordering -/

theorem strData_append (s t : String) : (s ++ t).data = s.data ++ t.data := rfl

theorem frameName_data (i : Nat) :
    (frameName i).data =
      'f' :: 'r' :: 'a' :: 'm' :: 'e' :: '_' ::
        ((format04 i).data ++ ['.', 'j', 'p', 'g']) := by
  simp [frameName, strData_append]

theorem strLtCore_cons_self {x : Char} (l1 l2 : List Char) :
    strLtCore (x :: l1) (x :: l2) = strLtCore l1 l2 := by
  simp [strLtCore]

theorem strLtCore_cons_lt {x y : Char} (h : x.toNat < y.toNat) (l1 l2 : List Char) :
    strLtCore (x :: l1) (y :: l2) = true := by
  simp [strLtCore, h]

theorem digitChar_toNat_lt : ∀ a, a < 10 → ∀ b, b < 10 → a < b →
    (digitChar a).toNat < (digitChar b).toNat := by decide

/-- Four-digit zero-padded filenames sort lexicographically in decode
order as long as every index is below 10000. -/
theorem frameName_lt_of_lt {i j : Nat} (hij : i < j) (hj : j < 10000) :
    pyStrLt (frameName i) (frameName j) = true := by
  have hi : i < 10000 := by omega
  simp only [pyStrLt, frameName_data, format04_data hi, format04_data hj,
    List.cons_append, List.nil_append]
  rw [strLtCore_cons_self, strLtCore_cons_self, strLtCore_cons_self,
    strLtCore_cons_self, strLtCore_cons_self, strLtCore_cons_self]
  by_cases c3 : i / 1000 < j / 1000
  · rw [strLtCore_cons_lt (digitChar_toNat_lt _ (by omega) _ (by omega) c3)]
  · have e3 : i / 1000 = j / 1000 := by omega
    rw [e3, strLtCore_cons_self]
    by_cases c2 : i / 100 % 10 < j / 100 % 10
    · rw [strLtCore_cons_lt (digitChar_toNat_lt _ (by omega) _ (by omega) c2)]
    · have e2 : i / 100 % 10 = j / 100 % 10 := by omega
      rw [e2, strLtCore_cons_self]
      by_cases c1 : i / 10 % 10 < j / 10 % 10
      · rw [strLtCore_cons_lt (digitChar_toNat_lt _ (by omega) _ (by omega) c1)]
      · have e1 : i / 10 % 10 = j / 10 % 10 := by omega
        have c0 : i % 10 < j % 10 := by omega
        rw [e1, strLtCore_cons_self,
          strLtCore_cons_lt (digitChar_toNat_lt _ (by omega) _ (by omega) c0)]

/-! ## Extraction lemmas -/

theorem extractLoop_eq (s : Nat) :
    ∀ (frames : List Image) (i0 : Nat),
      extractLoop s frames i0 =
        (((List.range frames.length).map (fun k => k + i0)).filter
            (fun i => i % (s + 1) == 0)).map
          (fun i => (frameName i, frames.getD (i - i0) default))
  | [], _ => by simp [extractLoop]
  | f :: rest, i0 => by
    have ih := extractLoop_eq s rest (i0 + 1)
    simp only [extractLoop, ih, List.length_cons, List.range_succ_eq_map,
      List.map_cons, List.map_map, Nat.zero_add, List.filter_cons]
    have hmaps :
        (List.range rest.length).map ((fun k => k + i0) ∘ Nat.succ) =
          (List.range rest.length).map (fun k => k + (i0 + 1)) :=
      List.map_congr_left (fun k _ => by simp [Function.comp]; omega)
    rw [hmaps]
    have htail :
        (((List.range rest.length).map (fun k => k + (i0 + 1))).filter
            (fun i => i % (s + 1) == 0)).map
          (fun i => (frameName i, rest.getD (i - (i0 + 1)) default)) =
        (((List.range rest.length).map (fun k => k + (i0 + 1))).filter
            (fun i => i % (s + 1) == 0)).map
          (fun i => (frameName i, (f :: rest).getD (i - i0) default)) := by
      refine List.map_congr_left ?_
      intro i hi
      rcases List.mem_map.mp (List.mem_filter.mp hi).1 with ⟨k, _, rfl⟩
      have e : k + (i0 + 1) - i0 = (k + (i0 + 1) - (i0 + 1)) + 1 := by omega
      rw [e, List.getD_cons_succ]
    by_cases hp : (i0 % (s + 1) == 0) = true
    · rw [if_pos hp, if_pos hp]
      simp only [List.map_cons, List.singleton_append]
      rw [htail]
      congr 1
      simp
    · rw [if_neg hp, if_neg hp]
      rw [htail]
      simp

theorem range_filter_stride (s : Nat) :
    ∀ N : Nat,
      (List.range N).filter (fun i => i % (s + 1) == 0) =
        (List.range ((N + s) / (s + 1))).map (fun k => k * (s + 1))
  | 0 => by simp [Nat.div_eq_of_lt (Nat.lt_succ_self s)]
  | N + 1 => by
    rw [List.range_succ, List.filter_append, range_filter_stride s N]
    simp only [List.filter_cons, List.filter_nil]
    by_cases hN : N % (s + 1) = 0
    · have hdvd : (s + 1) ∣ N := Nat.dvd_of_mod_eq_zero hN
      have hq : N / (s + 1) * (s + 1) = N := Nat.div_mul_cancel hdvd
      have eA : (N + s) / (s + 1) = N / (s + 1) := by
        rw [show N + s = s + (s + 1) * (N / (s + 1)) by
          rw [Nat.mul_comm, hq]; omega]
        rw [Nat.add_mul_div_left _ _ (Nat.succ_pos s),
          Nat.div_eq_of_lt (Nat.lt_succ_self s)]
        omega
      have eB : (N + 1 + s) / (s + 1) = N / (s + 1) + 1 := by
        rw [show N + 1 + s = (s + 1) + (s + 1) * (N / (s + 1)) by
          rw [Nat.mul_comm, hq]; omega]
        rw [Nat.add_mul_div_left _ _ (Nat.succ_pos s), Nat.div_self (Nat.succ_pos s)]
        omega
      have hp : (N % (s + 1) == 0) = true := by simpa using hN
      rw [hp, if_pos rfl, eA, eB, List.range_succ, List.map_append]
      simp [hq]
    · have hmod := Nat.div_add_mod N (s + 1)
      have hlt : N % (s + 1) < s + 1 := Nat.mod_lt _ (Nat.succ_pos s)
      have key : ∀ x, s + 1 ≤ x → x < 2 * (s + 1) →
          ((s + 1) * (N / (s + 1)) + x) / (s + 1) = N / (s + 1) + 1 := by
        intro x hx1 hx2
        rw [show (s + 1) * (N / (s + 1)) + x = x + (s + 1) * (N / (s + 1)) by omega]
        rw [Nat.add_mul_div_left _ _ (Nat.succ_pos s)]
        have hx : x / (s + 1) = 1 := Nat.div_eq_of_lt_le (by omega) (by omega)
        rw [hx]
        omega
      have eA : (N + s) / (s + 1) = N / (s + 1) + 1 := by
        rw [show N + s = (s + 1) * (N / (s + 1)) + (N % (s + 1) + s) by omega]
        exact key _ (by omega) (by omega)
      have eB : (N + 1 + s) / (s + 1) = N / (s + 1) + 1 := by
        rw [show N + 1 + s = (s + 1) * (N / (s + 1)) + (N % (s + 1) + 1 + s) by omega]
        exact key _ (by omega) (by omega)
      have hp : (N % (s + 1) == 0) = false := by simpa using hN
      rw [hp, if_neg (by simp), eA, eB]
      simp

/-! ## Reconstruction lemmas -/

theorem sortStrings_eq_nil_iff {l : List String} : sortStrings l = [] ↔ l = [] := by
  constructor
  · intro h
    have hlen := (perm_sortStrings l).length_eq
    rw [h] at hlen
    exact List.length_eq_zero.mp hlen.symm
  · rintro rfl
    rfl

theorem find?_filter_jpg (dir : List (String × Image)) (name : String)
    (h : strEndsWith name ".jpg" = true) :
    (dir.filter (fun p => strEndsWith p.1 ".jpg")).find? (fun p => p.1 == name) =
      dir.find? (fun p => p.1 == name) := by
  induction dir with
  | nil => rfl
  | cons p rest ih =>
    simp only [List.filter_cons]
    by_cases hq : strEndsWith p.1 ".jpg" = true
    · rw [if_pos hq]
      cases hpn : (p.1 == name) with
      | true => simp [List.find?_cons, hpn]
      | false => simp [List.find?_cons, hpn, ih]
    · rw [if_neg hq]
      have hpn : (p.1 == name) = false := by
        cases hpn : (p.1 == name)
        · rfl
        · have heq : p.1 = name := by simpa using hpn
          rw [heq] at hq
          exact absurd h hq
      simp [List.find?_cons, hpn, ih]

theorem imread_filter_jpg (dir : List (String × Image)) (name : String)
    (h : strEndsWith name ".jpg" = true) :
    imread (dir.filter (fun p => strEndsWith p.1 ".jpg")) name = imread dir name := by
  simp [imread, find?_filter_jpg dir name h]

theorem jpgNames_filter (dir : List (String × Image)) :
    jpgNames (dir.filter (fun p => strEndsWith p.1 ".jpg")) = jpgNames dir := by
  simp only [jpgNames, List.filter_map, List.filter_filter, Function.comp, Bool.and_self]
  rfl

theorem mem_sortStrings_jpg {dir : List (String × Image)} {x : String}
    (hx : x ∈ sortStrings (jpgNames dir)) : strEndsWith x ".jpg" = true := by
  have hmem : x ∈ jpgNames dir := ((perm_sortStrings _).mem_iff).mp hx
  exact (List.mem_filter.mp hmem).2

theorem reconstruct_video_filter_eq (dir : List (String × Image)) (fps : ℚ) :
    reconstruct_video dir fps =
      reconstruct_video (dir.filter (fun p => strEndsWith p.1 ".jpg")) fps := by
  simp only [reconstruct_video, jpgNames_filter]
  cases h : sortStrings (jpgNames dir) with
  | nil => rfl
  | cons p0 rest =>
    have hmem : ∀ x ∈ p0 :: rest, strEndsWith x ".jpg" = true := by
      intro x hx
      exact mem_sortStrings_jpg (h ▸ hx)
    have hmap : (p0 :: rest).map (imread (dir.filter (fun p => strEndsWith p.1 ".jpg"))) =
        (p0 :: rest).map (imread dir) :=
      List.map_congr_left (fun x hx => imread_filter_jpg dir x (hmem x hx))
    dsimp only
    rw [imread_filter_jpg dir p0 (hmem p0 (by simp)), hmap]

/-! # Claim theorems -/

/-- C1: for every source with `N` decodable frames and every stride
`s ≥ 0`, `extract_frames` writes exactly the frames whose decode index
`i` satisfies `i % (s+1) == 0` — i.e. indices `0, s+1, 2(s+1), …` —
the number of written frames is `ceil(N/(s+1)) = (N+s)/(s+1)`, the
decode index increments on skipped frames too (consecutive written
frames are exactly `s+1` decode steps apart), and the returned frame
count is the total number of decoded frames `N`. -/
theorem extract_frames_stride_spec (src : Source) (s : Nat) :
    (extract_frames src s).1 =
      ((List.range src.frames.length).filter (fun i => i % (s + 1) == 0)).map
        (fun i => (frameName i, src.frames.getD i default)) ∧
    (extract_frames src s).1 =
      (List.range ((src.frames.length + s) / (s + 1))).map
        (fun k => (frameName (k * (s + 1)), src.frames.getD (k * (s + 1)) default)) ∧
    (extract_frames src s).1.length = (src.frames.length + s) / (s + 1) ∧
    (extract_frames src s).2.1 = src.frames.length := by
  have h0 := extractLoop_eq s src.frames 0
  simp only [Nat.add_zero, Nat.sub_zero, List.map_id'] at h0
  have h1 : (extract_frames src s).1 =
      ((List.range src.frames.length).filter (fun i => i % (s + 1) == 0)).map
        (fun i => (frameName i, src.frames.getD i default)) := h0
  have h2 : (extract_frames src s).1 =
      (List.range ((src.frames.length + s) / (s + 1))).map
        (fun k => (frameName (k * (s + 1)), src.frames.getD (k * (s + 1)) default)) := by
    rw [h1, range_filter_stride, List.map_map]
    rfl
  refine ⟨h1, h2, ?_, rfl⟩
  rw [h2]
  simp

/-- C2 counterexample: on a source with zero decodable frames (e.g. an
unopenable video) and stride 0, `extract_frames` returns normally with
frame count 0 instead of failing with `SourceUnreadable` — refuting the
claim that it never returns normally in that case. -/
theorem extract_frames_returns_normally_on_empty :
    extract_frames { frames := [], fps := 30, audio := none } 0 = ([], 0, 30) := rfl

/-- C2 amended: `extract_frames` has no failure path at all: on a
source that cannot be opened or yields zero decodable frames it
returns normally with an empty frame directory and frame count 0 (the
source's reported fps is passed through); no `SourceUnreadable` error
exists in the code, and the empty frame set only surfaces later as
reconstruction's empty-frame-set error. -/
theorem extract_frames_empty_source (src : Source) (s : Nat) (h : src.frames = []) :
    extract_frames src s = ([], 0, src.fps) := by
  simp [extract_frames, h, extractLoop]

/-- C2 amended, witness at a concrete empty source. -/
theorem extract_frames_empty_source_witness :
    extract_frames { frames := [], fps := 24, audio := none } 1 = ([], 0, 24) :=
  extract_frames_empty_source { frames := [], fps := 24, audio := none } 1 rfl

/-- C3: the code contradicts the specified hard failure.  On a frame
directory whose second image (in sort order) has a different resolution
than the first, `reconstruct_video` does not fail with
`FrameDimensionMismatch`: it opens the writer at the first frame's
64×64 geometry and still writes the mismatched 32×32 frame, returning
normally — the silent-corruption behavior the spec flags as a latent
bug (§9). -/
theorem reconstruct_video_dimension_mismatch_unchecked :
    reconstruct_video [("a.jpg", ⟨64, 64, 0⟩), ("b.jpg", ⟨32, 32, 1⟩)] 30 =
      .ok { width := 64, height := 64, fps := 30,
            frames := [⟨64, 64, 0⟩, ⟨32, 32, 1⟩] } := rfl

/-- C4: `reconstruct_video` raises its error exactly when the frame
set (the `.jpg` entries of the directory) is empty; the error is
returned before any output container is produced, and a non-empty
frame set never produces this error. -/
theorem reconstruct_video_error_iff_empty (dir : List (String × Image)) (fps : ℚ) :
    reconstruct_video dir fps = .error .noFrames ↔ jpgNames dir = [] := by
  constructor
  · intro h
    by_contra hne
    cases hs : sortStrings (jpgNames dir) with
    | nil => exact hne (sortStrings_eq_nil_iff.mp hs)
    | cons p0 rest => simp [reconstruct_video, hs] at h
  · intro h
    simp [reconstruct_video, h, sortStrings]

/-- C5: on a non-empty frame set of `k` frames at frame rate `r`,
`reconstruct_video` writes exactly one output frame per input frame,
strictly in ascending lexicographic filename order, at frame rate `r`,
so the output duration is `k / r`; the original source's duration does
not appear anywhere in the computation, and sampling gaps are not
reproduced. -/
theorem reconstruct_video_writes_sorted (dir : List (String × Image)) (r : ℚ)
    (hne : jpgNames dir ≠ []) (hnd : (dir.map Prod.fst).Nodup) :
    ∃ v, reconstruct_video dir r = .ok v ∧
      v.frames = (sortStrings (jpgNames dir)).map (imread dir) ∧
      v.frames.length = (jpgNames dir).length ∧
      (sortStrings (jpgNames dir)).Pairwise (fun x y => pyStrLt x y = true) ∧
      v.fps = r ∧
      videoDuration v = ((jpgNames dir).length : ℚ) / r := by
  have hnd' : (jpgNames dir).Nodup := hnd.filter _
  have hstrict := strict_sorted_sortStrings hnd'
  cases hs : sortStrings (jpgNames dir) with
  | nil => exact absurd (sortStrings_eq_nil_iff.mp hs) hne
  | cons p0 rest =>
    have hlen : (p0 :: rest).length = (jpgNames dir).length := by
      have hpl := (perm_sortStrings (jpgNames dir)).length_eq
      rw [hs] at hpl
      exact hpl
    exact ⟨{ width := (imread dir p0).width, height := (imread dir p0).height,
             fps := r, frames := (p0 :: rest).map (imread dir) },
           by simp [reconstruct_video, hs], rfl,
           by rw [List.length_map, hlen],
           hs ▸ hstrict, rfl,
           by simp only [videoDuration, List.length_map]; rw [hlen]⟩

/-- C5 witness: a two-frame directory listed out of order, at rate 3. -/
theorem reconstruct_video_writes_sorted_witness :
    ∃ v, reconstruct_video
        [("frame_0002.jpg", ⟨2, 2, 1⟩), ("frame_0000.jpg", ⟨2, 2, 0⟩)] 3 = .ok v ∧
      v.frames =
        (sortStrings (jpgNames
          [("frame_0002.jpg", ⟨2, 2, 1⟩), ("frame_0000.jpg", ⟨2, 2, 0⟩)])).map
          (imread [("frame_0002.jpg", ⟨2, 2, 1⟩), ("frame_0000.jpg", ⟨2, 2, 0⟩)]) ∧
      v.frames.length =
        (jpgNames [("frame_0002.jpg", ⟨2, 2, 1⟩), ("frame_0000.jpg", ⟨2, 2, 0⟩)]).length ∧
      (sortStrings (jpgNames
          [("frame_0002.jpg", ⟨2, 2, 1⟩), ("frame_0000.jpg", ⟨2, 2, 0⟩)])).Pairwise
        (fun x y => pyStrLt x y = true) ∧
      v.fps = 3 ∧
      videoDuration v =
        ((jpgNames [("frame_0002.jpg", ⟨2, 2, 1⟩), ("frame_0000.jpg", ⟨2, 2, 0⟩)]).length : ℚ) / 3 :=
  reconstruct_video_writes_sorted
    [("frame_0002.jpg", ⟨2, 2, 1⟩), ("frame_0000.jpg", ⟨2, 2, 0⟩)] 3
    (by decide) (by decide)

/-- C6: whenever the original clip has an audio track, muxing succeeds
and the resulting audio track's duration equals the enhanced video's
duration (`set_duration` forces it), whether the original audio was
longer (truncation) or shorter (hold/pad); the output clip's own
duration is the enhanced video's as well. -/
theorem add_audio_duration_matches (original enhanced : Clip) (a : AudioTrack)
    (h : original.audio = some a) :
    ∃ c, add_audio_to_video original enhanced = .ok c ∧
      c.audio = some (set_duration a enhanced.duration) ∧
      (set_duration a enhanced.duration).duration = enhanced.duration ∧
      c.duration = enhanced.duration := by
  refine ⟨{ duration := enhanced.duration,
            audio := some (set_duration a enhanced.duration) }, ?_, rfl, rfl, rfl⟩
  simp [add_audio_to_video, h]

/-- C6 witness: original audio of duration 5 against an enhanced video
of duration 2 (the truncation case). -/
theorem add_audio_duration_matches_witness :
    ∃ c, add_audio_to_video { duration := 5, audio := some { duration := 5, payload := 7 } }
        { duration := 2, audio := none } = .ok c ∧
      c.audio = some (set_duration { duration := 5, payload := 7 }
        (Clip.duration { duration := 2, audio := none })) ∧
      (set_duration { duration := 5, payload := 7 }
        (Clip.duration { duration := 2, audio := none })).duration =
        Clip.duration { duration := 2, audio := none } ∧
      c.duration = Clip.duration { duration := 2, audio := none } :=
  add_audio_duration_matches
    { duration := 5, audio := some { duration := 5, payload := 7 } }
    { duration := 2, audio := none } { duration := 5, payload := 7 } rfl

/-- C7 counterexample: on a source with no audio track, the run does
not succeed with an empty audio track: `original_clip.audio` is `None`,
the mux step raises, the handler reports failure and no final video is
produced. -/
theorem runEnhance_no_audio_aborts_concrete :
    (runEnhance { frames := [⟨2, 2, 0⟩], fps := 10, audio := none } 0
        (fun fs => .ok fs)).finalVideo = none ∧
    (runEnhance { frames := [⟨2, 2, 0⟩], fps := 10, audio := none } 0
        (fun fs => .ok fs)).errorShown = true := by decide

/-- C7 amended: when the original video has no audio track the mux
step is fatal to the run: `None.set_duration` raises, `main`'s handler
catches it and shows an error, and no final video is produced — the
run never succeeds with a duration-zero audio track (the Streamlit app
itself keeps running, but the enhancement run fails). -/
theorem runEnhance_no_audio_never_succeeds (src : Source) (skip : Nat)
    (engine : List (String × Image) → Except Unit (List (String × Image)))
    (h : src.audio = none) :
    (runEnhance src skip engine).finalVideo = none ∧
    (runEnhance src skip engine).errorShown = true := by
  have hmux : ∀ c : Clip, add_audio_to_video (sourceClip src) c =
      .error .noneHasNoSetDuration := by
    intro c
    simp [add_audio_to_video, sourceClip, h]
  simp only [runEnhance]
  cases he : engine (extract_frames src skip).1 with
  | error e => simp
  | ok restored =>
    cases hr : reconstruct_video restored (extract_frames src skip).2.2 with
    | error e => simp [hr]
    | ok v => simp [hr, hmux]

/-- C7 amended, witness at a concrete audio-less source. -/
theorem runEnhance_no_audio_never_succeeds_witness :
    (runEnhance { frames := [⟨4, 4, 2⟩, ⟨4, 4, 3⟩], fps := 24, audio := none } 1
        (fun fs => .ok fs)).finalVideo = none ∧
    (runEnhance { frames := [⟨4, 4, 2⟩, ⟨4, 4, 3⟩], fps := 24, audio := none } 1
        (fun fs => .ok fs)).errorShown = true :=
  runEnhance_no_audio_never_succeeds
    { frames := [⟨4, 4, 2⟩, ⟨4, 4, 3⟩], fps := 24, audio := none } 1
    (fun fs => .ok fs) rfl

/-- C8 counterexample: the extraction filenames zero-pad to only four
digits, and at decode index 10000 — a realizable frame count —
lexicographic order silently diverges from decode order:
`"frame_10000.jpg"` sorts strictly before `"frame_9999.jpg"`, and
nothing fails loudly. -/
theorem frameName_missorts_at_index_10000 :
    (9999 : Nat) < 10000 ∧
    pyStrLt (frameName 10000) (frameName 9999) = true ∧
    pyStrLt (frameName 9999) (frameName 10000) = false := by decide

/-- C8 amended: the filenames written by extraction zero-pad the decode
index to four digits (`frame_%04d.jpg`), which preserves
lexicographic-equals-temporal order only while every decode index is
below 10000; beyond that the order silently breaks (see the
counterexample) — there is no loud failure and no dynamic widening. -/
theorem frameName_sort_matches_decode_order_below_10000 (i j : Nat)
    (hij : i < j) (hj : j < 10000) :
    pyStrLt (frameName i) (frameName j) = true ∧
    pyStrLe (frameName i) (frameName j) = true := by
  have h := frameName_lt_of_lt hij hj
  refine ⟨h, ?_⟩
  simp only [pyStrLe, pyStrLt] at h ⊢
  rw [strLtCore_asymm _ _ h]
  rfl

/-- C8 amended, witness at indices 3 and 12. -/
theorem frameName_sort_matches_decode_order_witness :
    (3 : Nat) < 12 ∧ (12 : Nat) < 10000 ∧
    (pyStrLt (frameName 3) (frameName 12) = true ∧
     pyStrLe (frameName 3) (frameName 12) = true) :=
  ⟨by decide, by decide,
   frameName_sort_matches_decode_order_below_10000 3 12 (by decide) (by decide)⟩

/-- C9: on every execution path of a button-press run — engine success
or failure, reconstruction success or failure, mux success or failure —
the CUDA cache release request of the `finally` clause is issued, and
it is the last event before the run ends. -/
theorem runEnhance_always_releases_cuda (src : Source) (skip : Nat)
    (engine : List (String × Image) → Except Unit (List (String × Image))) :
    Event.cudaCacheCleared ∈ (runEnhance src skip engine).events ∧
    (runEnhance src skip engine).events.getLast? = some Event.cudaCacheCleared := by
  simp only [runEnhance]
  split <;> exact ⟨by simp, rfl⟩

/-- C10: `reconstruct_video` considers exactly the directory entries
whose names end in `".jpg"`: the result is unchanged when all other
entries are removed, and a directory with no `.jpg` entry at all (e.g.
only `.png` images) is treated as an empty frame set and fails with the
empty-set error. -/
theorem reconstruct_video_jpg_only (dir : List (String × Image)) (fps : ℚ) :
    reconstruct_video dir fps =
      reconstruct_video (dir.filter (fun p => strEndsWith p.1 ".jpg")) fps ∧
    ((∀ p ∈ dir, strEndsWith p.1 ".jpg" = false) →
      reconstruct_video dir fps = .error .noFrames) := by
  refine ⟨reconstruct_video_filter_eq dir fps, ?_⟩
  intro h
  have hempty : jpgNames dir = [] := by
    simp only [jpgNames, List.filter_eq_nil_iff]
    intro a ha
    rcases List.mem_map.mp ha with ⟨p, hp, rfl⟩
    simp [h p hp]
  simp [reconstruct_video, hempty, sortStrings]

/-- C10 witness: a directory holding only a `.png` image fails with the
empty-set error. -/
theorem reconstruct_video_jpg_only_witness :
    reconstruct_video [("a.png", ⟨64, 64, 0⟩)] 30 = .error .noFrames :=
  (reconstruct_video_jpg_only [("a.png", ⟨64, 64, 0⟩)] 30).2 (by decide)
